import Mathlib

/-
  Shallow embedding of the payments engine (src/main.rs).

  Amounts are modelled as exact rationals; the source stores them as f64
  and the spec states its numeric properties up to exact arithmetic.
  The two f64 range constants that the source compares against are kept
  as their exact rational values.

  Rust panics (the expect calls on missing amounts) are modelled as the
  error case of Except, like the Result errors that the source propagates:
  both abort the run without emitting a result.
-/

namespace PaymentsEngine

/-- The five transaction kinds of the source enum TransactionCategory. -/
inductive TransactionCategory where
  | Deposit
  | Withdrawal
  | Dispute
  | Resolve
  | Chargeback
deriving DecidableEq, Repr

/-- The source struct Transaction: kind, client id (u16), transaction id (u32),
    optional amount. -/
structure Transaction where
  category : TransactionCategory
  client_id : Nat
  tx : Nat
  amount : Option ℚ
deriving DecidableEq, Repr

/-- The source struct Client: one ledger per client. -/
structure Client where
  available : ℚ
  held : ℚ
  total : ℚ
  locked : Bool
deriving DecidableEq, Repr

/-- Default::default() for Client: all-zero balances, unlocked. -/
def Client.default : Client :=
  { available := 0, held := 0, total := 0, locked := false }

/-- Exact value of f64::MIN_POSITIVE, the threshold both deposit and
    withdraw compare amounts against. -/
def f64MinPositive : ℚ := 1 / 2 ^ 1022

/-- Exact value of f64::MAX, the threshold deposit compares the new total
    against. -/
def f64Max : ℚ := (2 ^ 53 - 1) * 2 ^ 971

/-- fn deposit(amount, client). -/
def deposit (amount : ℚ) (client : Client) : Except String Client :=
  if amount < f64MinPositive then
    .error "Cannot deposit a negative amount"
  else if f64Max < client.total + amount then
    .error "You are getting way too rich"
  else
    .ok { client with
            available := client.available + amount
            total := client.total + amount }

/-- fn withdraw(amount, client): the Bool records whether the withdrawal
    was applied. -/
def withdraw (amount : ℚ) (client : Client) : Except String (Bool × Client) :=
  if amount < f64MinPositive then
    .error "Cannot withdraw a negative amount"
  else if amount < client.available then
    .ok (true,
      { client with
          available := client.available - amount
          total := client.total - amount })
  else
    .ok (false, client)

/-- HashMap.insert on the transaction history. -/
def insertTx (history : Nat → Option Transaction) (k : Nat) (t : Transaction) :
    Nat → Option Transaction :=
  fun k' => if k' = k then some t else history k'

/-- HashSet.insert on the ongoing-disputes set. -/
def insertDispute (disputes : Nat → Bool) (k : Nat) : Nat → Bool :=
  fun k' => if k' = k then true else disputes k'

/-- HashSet.remove on the ongoing-disputes set. -/
def removeDispute (disputes : Nat → Bool) (k : Nat) : Nat → Bool :=
  fun k' => if k' = k then false else disputes k'

/-- HashMap update of one client ledger. -/
def updateClient (clients : Nat → Client) (k : Nat) (c : Client) : Nat → Client :=
  fun k' => if k' = k then c else clients k'

/-- fn dispute: returns the updated dispute set and client; the error case
    models the panic when a stored Deposit record lacks an amount. -/
def dispute (txId : Nat) (history : Nat → Option Transaction)
    (disputes : Nat → Bool) (client : Client) :
    Except String ((Nat → Bool) × Client) :=
  if disputes txId then
    .ok (disputes, client)
  else
    match history txId with
    | none => .ok (disputes, client)
    | some disputed =>
      match disputed.category with
      | .Deposit =>
        match disputed.amount with
        | none => .error "The amount of the disputed transaction was not provided"
        | some amount =>
          .ok (insertDispute disputes disputed.tx,
            { client with
                available := client.available - amount
                held := client.held + amount })
      | _ => .ok (disputes, client)

/-- fn resolve. -/
def resolve (txId : Nat) (history : Nat → Option Transaction)
    (disputes : Nat → Bool) (client : Client) :
    Except String ((Nat → Bool) × Client) :=
  if disputes txId then
    match history txId with
    | none => .ok (disputes, client)
    | some resolved =>
      match resolved.category with
      | .Deposit =>
        match resolved.amount with
        | none => .error "The amount of the resolved transaction was not provided"
        | some amount =>
          .ok (removeDispute disputes resolved.tx,
            { client with
                available := client.available + amount
                held := client.held - amount })
      | _ => .ok (disputes, client)
  else
    .ok (disputes, client)

/-- fn charge_back. -/
def chargeBack (txId : Nat) (history : Nat → Option Transaction)
    (disputes : Nat → Bool) (client : Client) :
    Except String ((Nat → Bool) × Client) :=
  if disputes txId then
    match history txId with
    | none => .ok (disputes, client)
    | some chargedBack =>
      match chargedBack.category with
      | .Deposit =>
        match chargedBack.amount with
        | none => .error "The amount of the charged back transaction was not provided"
        | some amount =>
          .ok (removeDispute disputes chargedBack.tx,
            { client with
                held := client.held - amount
                total := client.total - amount
                locked := true })
      | _ => .ok (disputes, client)
  else
    .ok (disputes, client)

/-- The mutable state of process_transactions: the per-client ledgers,
    the transaction history, and the ongoing-disputes set. -/
@[ext]
structure EngineState where
  clients : Nat → Client
  history : Nat → Option Transaction
  disputes : Nat → Bool

/-- The state at the start of a run: empty maps (every client defaults). -/
def initState : EngineState :=
  { clients := fun _ => Client.default
    history := fun _ => none
    disputes := fun _ => false }

/-- One iteration of the loop body of process_transactions; the borrowed
    client entry of the source is read as s.clients t.client_id. -/
def processOne (s : EngineState) (t : Transaction) : Except String EngineState :=
  if (s.clients t.client_id).locked then
    .ok s
  else
    match t.category with
    | .Deposit =>
      match t.amount with
      | none => .error "You should provide an amount for a deposit transaction"
      | some amount =>
        match deposit amount (s.clients t.client_id) with
        | .error e => .error e
        | .ok client' =>
          .ok { s with
                  clients := updateClient s.clients t.client_id client'
                  history := insertTx s.history t.tx t }
    | .Withdrawal =>
      match t.amount with
      | none => .error "You should provide an amount for a withdraw transaction"
      | some amount =>
        match withdraw amount (s.clients t.client_id) with
        | .error e => .error e
        | .ok (success, client') =>
          .ok { s with
                  clients := updateClient s.clients t.client_id client'
                  history := if success then insertTx s.history t.tx t else s.history }
    | .Dispute =>
      match dispute t.tx s.history s.disputes (s.clients t.client_id) with
      | .error e => .error e
      | .ok (disputes', client') =>
        .ok { s with
                clients := updateClient s.clients t.client_id client'
                disputes := disputes' }
    | .Resolve =>
      match resolve t.tx s.history s.disputes (s.clients t.client_id) with
      | .error e => .error e
      | .ok (disputes', client') =>
        .ok { s with
                clients := updateClient s.clients t.client_id client'
                disputes := disputes' }
    | .Chargeback =>
      match chargeBack t.tx s.history s.disputes (s.clients t.client_id) with
      | .error e => .error e
      | .ok (disputes', client') =>
        .ok { s with
                clients := updateClient s.clients t.client_id client'
                disputes := disputes' }

/-- fn process_transactions: fold processOne over the record list. -/
def processTransactions : List Transaction → EngineState → Except String EngineState
  | [], s => .ok s
  | t :: ts, s =>
    match processOne s t with
    | .error e => .error e
    | .ok s' => processTransactions ts s'

/-- Convenience constructor for Deposit records. -/
def depositTx (cid txId : Nat) (a : ℚ) : Transaction :=
  { category := .Deposit, client_id := cid, tx := txId, amount := some a }

/-- Convenience constructor for Withdrawal records. -/
def withdrawalTx (cid txId : Nat) (a : ℚ) : Transaction :=
  { category := .Withdrawal, client_id := cid, tx := txId, amount := some a }

/-- Convenience constructor for Dispute records. -/
def disputeTx (cid txId : Nat) : Transaction :=
  { category := .Dispute, client_id := cid, tx := txId, amount := none }

/-- Convenience constructor for Resolve records. -/
def resolveTx (cid txId : Nat) : Transaction :=
  { category := .Resolve, client_id := cid, tx := txId, amount := none }

/-- Convenience constructor for Chargeback records. -/
def chargebackTx (cid txId : Nat) : Transaction :=
  { category := .Chargeback, client_id := cid, tx := txId, amount := none }

/-- Writing a client field back unchanged leaves the client map unchanged. -/
theorem updateClient_self (clients : Nat → Client) (k : Nat) :
    updateClient clients k (clients k) = clients := by
  funext k'
  by_cases h : k' = k <;> simp [updateClient, h]

/-- Rebuilding the state with an unchanged client map is the identity. -/
theorem withClients_update_self (s : EngineState) (k : Nat) :
    ({ s with clients := updateClient s.clients k (s.clients k) } : EngineState) = s := by
  cases s
  simp [updateClient_self]

/-- The per-account accounting identity of the spec: total = available + held. -/
def ClientInv (c : Client) : Prop :=
  c.total = c.available + c.held

theorem deposit_clientInv {a : ℚ} {c c' : Client}
    (h : deposit a c = .ok c') (hc : ClientInv c) : ClientInv c' := by
  unfold deposit at h
  split at h
  · simp at h
  · split at h
    · simp at h
    · injection h with h
      subst h
      simp only [ClientInv] at hc ⊢
      linarith

theorem withdraw_clientInv {a : ℚ} {c : Client} {out : Bool × Client}
    (h : withdraw a c = .ok out) (hc : ClientInv c) : ClientInv out.2 := by
  unfold withdraw at h
  split at h
  · simp at h
  · split at h
    · injection h with h
      subst h
      simp only [ClientInv] at hc ⊢
      linarith
    · injection h with h
      subst h
      exact hc

theorem dispute_clientInv {txId : Nat} {history : Nat → Option Transaction}
    {disputes : Nat → Bool} {c : Client} {out : (Nat → Bool) × Client}
    (h : dispute txId history disputes c = .ok out) (hc : ClientInv c) :
    ClientInv out.2 := by
  unfold dispute at h
  split at h
  · injection h with h; subst h; exact hc
  · split at h
    · injection h with h; subst h; exact hc
    · split at h
      · split at h
        · simp at h
        · injection h with h
          subst h
          simp only [ClientInv] at hc ⊢
          linarith
      · injection h with h; subst h; exact hc

theorem resolve_clientInv {txId : Nat} {history : Nat → Option Transaction}
    {disputes : Nat → Bool} {c : Client} {out : (Nat → Bool) × Client}
    (h : resolve txId history disputes c = .ok out) (hc : ClientInv c) :
    ClientInv out.2 := by
  unfold resolve at h
  split at h
  · split at h
    · injection h with h; subst h; exact hc
    · split at h
      · split at h
        · simp at h
        · injection h with h
          subst h
          simp only [ClientInv] at hc ⊢
          linarith
      · injection h with h; subst h; exact hc
  · injection h with h; subst h; exact hc

theorem chargeBack_clientInv {txId : Nat} {history : Nat → Option Transaction}
    {disputes : Nat → Bool} {c : Client} {out : (Nat → Bool) × Client}
    (h : chargeBack txId history disputes c = .ok out) (hc : ClientInv c) :
    ClientInv out.2 := by
  unfold chargeBack at h
  split at h
  · split at h
    · injection h with h; subst h; exact hc
    · split at h
      · split at h
        · simp at h
        · injection h with h
          subst h
          simp only [ClientInv] at hc ⊢
          linarith
      · injection h with h; subst h; exact hc
  · injection h with h; subst h; exact hc

theorem processOne_clientInv {s s' : EngineState} {t : Transaction}
    (h : processOne s t = .ok s') (hc : ∀ cid, ClientInv (s.clients cid)) :
    ∀ cid, ClientInv (s'.clients cid) := by
  unfold processOne at h
  split at h
  · injection h with h; subst h; exact hc
  · split at h
    · -- Deposit
      split at h
      · simp at h
      · split at h
        · simp at h
        · rename_i amount heq client' hdep
          injection h with h
          subst h
          intro cid
          by_cases hcid : cid = t.client_id
          · simpa [updateClient, hcid] using deposit_clientInv hdep (hc t.client_id)
          · simpa [updateClient, hcid] using hc cid
    · -- Withdrawal
      split at h
      · simp at h
      · split at h
        · simp at h
        · rename_i amount heq pr hwd
          injection h with h
          subst h
          intro cid
          by_cases hcid : cid = t.client_id
          · simpa [updateClient, hcid] using withdraw_clientInv hwd (hc t.client_id)
          · simpa [updateClient, hcid] using hc cid
    · -- Dispute
      split at h
      · simp at h
      · rename_i pr hdi
        injection h with h
        subst h
        intro cid
        by_cases hcid : cid = t.client_id
        · simpa [updateClient, hcid] using dispute_clientInv hdi (hc t.client_id)
        · simpa [updateClient, hcid] using hc cid
    · -- Resolve
      split at h
      · simp at h
      · rename_i pr hre
        injection h with h
        subst h
        intro cid
        by_cases hcid : cid = t.client_id
        · simpa [updateClient, hcid] using resolve_clientInv hre (hc t.client_id)
        · simpa [updateClient, hcid] using hc cid
    · -- Chargeback
      split at h
      · simp at h
      · rename_i pr hcb
        injection h with h
        subst h
        intro cid
        by_cases hcid : cid = t.client_id
        · simpa [updateClient, hcid] using chargeBack_clientInv hcb (hc t.client_id)
        · simpa [updateClient, hcid] using hc cid

theorem processTransactions_clientInv (ts : List Transaction) :
    ∀ s s', processTransactions ts s = .ok s' →
      (∀ cid, ClientInv (s.clients cid)) → ∀ cid, ClientInv (s'.clients cid) := by
  induction ts with
  | nil =>
    intro s s' h hc
    injection h with h
    subst h
    exact hc
  | cons t ts ih =>
    intro s s' h hc
    unfold processTransactions at h
    split at h
    · simp at h
    · rename_i s1 heq
      exact ih s1 s' h (processOne_clientInv heq hc)

/-- Claim C1: after processing any prefix of the input from the initial
    state, every client ledger satisfies total = available + held, with
    exact arithmetic. -/
theorem claim1_total_eq_available_add_held (ts : List Transaction) (s : EngineState)
    (h : processTransactions ts initState = .ok s) (cid : Nat) :
    (s.clients cid).total = (s.clients cid).available + (s.clients cid).held := by
  have h0 : ∀ cid, ClientInv (initState.clients cid) := by
    intro cid
    simp [initState, Client.default, ClientInv]
  exact processTransactions_clientInv ts initState s h h0 cid

/-- Final state of the one-deposit run used as the witness input for C1. -/
def c1State : EngineState :=
  { clients := updateClient initState.clients 1
      { available := 5, held := 0, total := 5, locked := false }
    history := insertTx initState.history 1 (depositTx 1 1 5)
    disputes := initState.disputes }

theorem claim1_total_eq_available_add_held_witness :
    processTransactions [depositTx 1 1 5] initState = .ok c1State ∧
    (c1State.clients 1).total = (c1State.clients 1).available + (c1State.clients 1).held :=
  ⟨by norm_num [processTransactions, processOne, deposit, depositTx, insertTx,
      updateClient, initState, Client.default, f64MinPositive, f64Max, c1State],
   claim1_total_eq_available_add_held [depositTx 1 1 5] c1State
    (by norm_num [processTransactions, processOne, deposit, depositTx, insertTx,
      updateClient, initState, Client.default, f64MinPositive, f64Max, c1State]) 1⟩

theorem processOne_locked_noop {s : EngineState} {t : Transaction}
    (hl : (s.clients t.client_id).locked = true) : processOne s t = .ok s := by
  unfold processOne
  simp [hl]

theorem processOne_clients_other {s s' : EngineState} {t : Transaction}
    (h : processOne s t = .ok s') {c : Nat} (hc : c ≠ t.client_id) :
    s'.clients c = s.clients c := by
  unfold processOne at h
  split at h
  · injection h with h; subst h; rfl
  · split at h
    · split at h
      · simp at h
      · split at h
        · simp at h
        · injection h with h; subst h; simp [updateClient, hc]
    · split at h
      · simp at h
      · split at h
        · simp at h
        · injection h with h; subst h; simp [updateClient, hc]
    · split at h
      · simp at h
      · injection h with h; subst h; simp [updateClient, hc]
    · split at h
      · simp at h
      · injection h with h; subst h; simp [updateClient, hc]
    · split at h
      · simp at h
      · injection h with h; subst h; simp [updateClient, hc]

theorem processOne_locked_frozen {s s' : EngineState} {t : Transaction} {c : Nat}
    (hl : (s.clients c).locked = true) (h : processOne s t = .ok s') :
    s'.clients c = s.clients c := by
  by_cases hc : c = t.client_id
  · subst hc
    rw [processOne_locked_noop hl] at h
    injection h with h
    subst h
    rfl
  · exact processOne_clients_other h hc

/-- Claim C4: freeze finality. Once a client ledger is locked, processing
    any further records (of any kind, addressed to any client) leaves that
    client ledger exactly unchanged, for the remainder of the run. -/
theorem claim4_freeze_finality (ts : List Transaction) :
    ∀ (s s' : EngineState) (c : Nat), (s.clients c).locked = true →
      processTransactions ts s = .ok s' → s'.clients c = s.clients c := by
  induction ts with
  | nil =>
    intro s s' c _ h
    injection h with h
    subst h
    rfl
  | cons t ts ih =>
    intro s s' c hl h
    unfold processTransactions at h
    split at h
    · simp at h
    · rename_i s1 heq
      have h1 : s1.clients c = s.clients c := processOne_locked_frozen hl heq
      have h2 : (s1.clients c).locked = true := by rw [h1]; exact hl
      rw [ih s1 s' c h2 h, h1]

/-- A state whose only client, client 1, is locked: used as the witness
    input for C4. -/
def lockedState : EngineState :=
  { clients := fun k => if k = 1 then { available := 3, held := 0, total := 3, locked := true } else Client.default
    history := fun _ => none
    disputes := fun _ => false }

theorem claim4_freeze_finality_witness :
    (lockedState.clients 1).locked = true ∧
    processTransactions [depositTx 1 2 5] lockedState = .ok lockedState ∧
    lockedState.clients 1 = lockedState.clients 1 :=
  ⟨rfl,
   by norm_num [processTransactions, processOne, lockedState, depositTx],
   claim4_freeze_finality [depositTx 1 2 5] lockedState lockedState 1 rfl
    (by norm_num [processTransactions, processOne, lockedState, depositTx])⟩

/-- Claim C8: no-op idempotence. A Dispute whose identifier is already in
    the dispute set leaves the whole engine state unchanged, and a Resolve
    or Chargeback whose identifier is not in the dispute set leaves the
    whole engine state unchanged. -/
theorem claim8_noop_idempotence (s : EngineState) (t : Transaction) :
    (t.category = .Dispute → s.disputes t.tx = true → processOne s t = .ok s) ∧
    ((t.category = .Resolve ∨ t.category = .Chargeback) → s.disputes t.tx = false →
      processOne s t = .ok s) := by
  constructor
  · intro hcat hd
    by_cases hl : (s.clients t.client_id).locked
    · exact processOne_locked_noop hl
    · unfold processOne dispute
      simp [hl, hcat, hd, withClients_update_self]
  · intro hcat hd
    by_cases hl : (s.clients t.client_id).locked
    · exact processOne_locked_noop hl
    · rcases hcat with hcat | hcat
      · unfold processOne resolve
        simp [hl, hcat, hd, withClients_update_self]
      · unfold processOne chargeBack
        simp [hl, hcat, hd, withClients_update_self]

/-- A state with transaction 1 under dispute: used as the witness input
    for C8. -/
def disputedState : EngineState :=
  { clients := fun k => if k = 1 then { available := 0, held := 5, total := 5, locked := false } else Client.default
    history := fun k => if k = 1 then some (depositTx 1 1 5) else none
    disputes := fun k => k == 1 }

theorem claim8_noop_idempotence_witness :
    disputedState.disputes 1 = true ∧
    processOne disputedState (disputeTx 1 1) = .ok disputedState :=
  ⟨rfl, (claim8_noop_idempotence disputedState (disputeTx 1 1)).1 rfl rfl⟩

/-- A state whose client 1 has exactly 1 unit available: used to show that
    a withdrawal of the full balance is refused. -/
def oneAvailState : EngineState :=
  { clients := fun k => if k = 1 then { available := 1, held := 0, total := 1, locked := false } else Client.default
    history := fun _ => none
    disputes := fun _ => false }

/-- Counterexample to claim C2 as stated: with available = 1 and a
    withdrawal of amount 1 (so amount is non-negative and amount is at most
    available), the source refuses the withdrawal and leaves the state
    unchanged, because fn withdraw tests amount < available strictly. -/
theorem claim2_counterexample :
    (1 : ℚ) ≤ (oneAvailState.clients 1).available ∧
    (oneAvailState.clients 1).locked = false ∧
    processOne oneAvailState (withdrawalTx 1 2 1) = .ok oneAvailState := by
  refine ⟨by norm_num [oneAvailState], rfl, ?_⟩
  have hb : processOne oneAvailState (withdrawalTx 1 2 1) =
      .ok { oneAvailState with
              clients := updateClient oneAvailState.clients 1 (oneAvailState.clients 1) } := by
    norm_num [processOne, withdraw, withdrawalTx, oneAvailState, f64MinPositive]
  rw [hb, withClients_update_self]

/-- Claim C2 as amended: for a withdrawal of an amount at least
    f64::MIN_POSITIVE against an unlocked ledger, the withdrawal is applied
    if and only if amount is strictly below available; on success available
    and total each decrease by amount and the record enters the history; on
    amount at least available the record is a silent no-op. -/
theorem claim2_amended_withdrawal (s : EngineState) (t : Transaction) (a : ℚ)
    (hcat : t.category = .Withdrawal) (hamt : t.amount = some a)
    (hmin : f64MinPositive ≤ a) (hunlocked : (s.clients t.client_id).locked = false) :
    (a < (s.clients t.client_id).available →
      processOne s t = .ok
        { clients := updateClient s.clients t.client_id
            { s.clients t.client_id with
                available := (s.clients t.client_id).available - a
                total := (s.clients t.client_id).total - a }
          history := insertTx s.history t.tx t
          disputes := s.disputes }) ∧
    ((s.clients t.client_id).available ≤ a → processOne s t = .ok s) := by
  constructor
  · intro hlt
    unfold processOne withdraw
    simp [hunlocked, hcat, hamt, not_lt.mpr hmin, hlt]
  · intro hge
    unfold processOne withdraw
    simp [hunlocked, hcat, hamt, not_lt.mpr hmin, not_lt.mpr hge,
      withClients_update_self]

theorem claim2_amended_withdrawal_witness :
    f64MinPositive ≤ (3 : ℚ) ∧
    (3 : ℚ) < (oneAvailState.clients 2).available + 5 ∧
    processOne
      { oneAvailState with
          clients := updateClient oneAvailState.clients 2
            { available := 5, held := 0, total := 5, locked := false } }
      (withdrawalTx 2 7 3) = .ok
        { clients := updateClient
            (updateClient oneAvailState.clients 2
              { available := 5, held := 0, total := 5, locked := false }) 2
            { available := 2, held := 0, total := 2, locked := false }
          history := insertTx oneAvailState.history 7 (withdrawalTx 2 7 3)
          disputes := oneAvailState.disputes } := by
  refine ⟨by norm_num [f64MinPositive], by norm_num [oneAvailState, Client.default], ?_⟩
  have h := (claim2_amended_withdrawal
    { oneAvailState with
        clients := updateClient oneAvailState.clients 2
          { available := 5, held := 0, total := 5, locked := false } }
    (withdrawalTx 2 7 3) 3 rfl rfl
    (by norm_num [f64MinPositive])
    (by norm_num [withdrawalTx, updateClient])).1
    (by norm_num [withdrawalTx, updateClient])
  norm_num [withdrawalTx, updateClient, oneAvailState] at h ⊢
  exact h

/-- Claim C3: a Dispute against an unlocked ledger is a complete no-op when
    the referenced identifier is absent from history, already under dispute,
    or refers to a non-Deposit record; otherwise it moves the referenced
    deposit amount from available to held, leaves total and history
    unchanged, and adds the identifier to the dispute set. -/
theorem claim3_dispute_spec (s : EngineState) (t : Transaction)
    (hcat : t.category = .Dispute) (hunlocked : (s.clients t.client_id).locked = false) :
    ((s.history t.tx = none ∨ s.disputes t.tx = true ∨
        ∀ r, s.history t.tx = some r → r.category ≠ .Deposit) →
      processOne s t = .ok s) ∧
    (∀ r a, s.history t.tx = some r → r.category = .Deposit → r.amount = some a →
      s.disputes t.tx = false → r.tx = t.tx →
      processOne s t = .ok
        { clients := updateClient s.clients t.client_id
            { s.clients t.client_id with
                available := (s.clients t.client_id).available - a
                held := (s.clients t.client_id).held + a }
          history := s.history
          disputes := insertDispute s.disputes t.tx }) := by
  constructor
  · intro hno
    unfold processOne dispute
    rcases hno with hn | hd | hnd
    · by_cases hd : s.disputes t.tx
      · simp [hunlocked, hcat, hd, withClients_update_self]
      · simp [hunlocked, hcat, hd, hn, withClients_update_self]
    · simp [hunlocked, hcat, hd, withClients_update_self]
    · by_cases hd : s.disputes t.tx
      · simp [hunlocked, hcat, hd, withClients_update_self]
      · cases hh : s.history t.tx with
        | none => simp [hunlocked, hcat, hd, hh, withClients_update_self]
        | some r =>
          have hr : r.category ≠ .Deposit := hnd r hh
          cases hrc : r.category
          · exact absurd hrc hr
          all_goals simp [hunlocked, hcat, hd, hh, hrc, withClients_update_self]
  · intro r a hh hrc hra hd htx
    unfold processOne dispute
    simp [hunlocked, hcat, hd, hh, hrc, hra, htx]

/-- A state whose client 1 holds a recorded deposit of 5 under transaction
    id 1, with nothing yet disputed: the witness input for C3. -/
def c3State : EngineState :=
  { clients := fun k => if k = 1 then { available := 5, held := 0, total := 5, locked := false } else Client.default
    history := fun k => if k = 1 then some (depositTx 1 1 5) else none
    disputes := fun _ => false }

theorem claim3_dispute_spec_witness :
    c3State.history 1 = some (depositTx 1 1 5) ∧
    (c3State.clients 1).locked = false ∧
    c3State.disputes 1 = false ∧
    processOne c3State (disputeTx 1 1) = .ok
      { clients := updateClient c3State.clients 1
          { c3State.clients 1 with
              available := (c3State.clients 1).available - 5
              held := (c3State.clients 1).held + 5 }
        history := c3State.history
        disputes := insertDispute c3State.disputes 1 } :=
  ⟨rfl, rfl, rfl,
   (claim3_dispute_spec c3State (disputeTx 1 1) rfl rfl).2
    (depositTx 1 1 5) 5 rfl rfl rfl rfl rfl⟩

/-- Counterexample to claim C7 as stated: the amount 0 is non-negative, the
    ledger is unlocked, yet the source rejects the deposit with an error
    (fn deposit tests amount < f64::MIN_POSITIVE, which holds for 0). -/
theorem claim7_counterexample :
    (0 : ℚ) ≤ 0 ∧ (initState.clients 1).locked = false ∧
    processOne initState (depositTx 1 1 0) =
      .error "Cannot deposit a negative amount" := by
  refine ⟨le_refl 0, rfl, ?_⟩
  norm_num [processOne, deposit, depositTx, initState, Client.default, f64MinPositive]

/-- Claim C7 as amended: a Deposit whose amount is at least
    f64::MIN_POSITIVE, against an unlocked ledger and not overflowing
    f64::MAX, increases available and total by the amount and records the
    transaction in history; a Deposit whose amount is below
    f64::MIN_POSITIVE (in particular any negative amount) is not applied
    and aborts the whole run with an error. -/
theorem claim7_amended_deposit (s : EngineState) (t : Transaction) (a : ℚ)
    (hcat : t.category = .Deposit) (hamt : t.amount = some a)
    (hunlocked : (s.clients t.client_id).locked = false) :
    (f64MinPositive ≤ a → (s.clients t.client_id).total + a ≤ f64Max →
      processOne s t = .ok
        { clients := updateClient s.clients t.client_id
            { s.clients t.client_id with
                available := (s.clients t.client_id).available + a
                total := (s.clients t.client_id).total + a }
          history := insertTx s.history t.tx t
          disputes := s.disputes }) ∧
    (a < f64MinPositive → ∀ rest, processTransactions (t :: rest) s =
      .error "Cannot deposit a negative amount") := by
  constructor
  · intro hmin hmax
    unfold processOne deposit
    simp [hunlocked, hcat, hamt, not_lt.mpr hmin, not_lt.mpr hmax]
  · intro hneg rest
    unfold processTransactions processOne deposit
    simp [hunlocked, hcat, hamt, hneg]

theorem claim7_amended_deposit_witness :
    f64MinPositive ≤ (5 : ℚ) ∧
    (initState.clients 1).total + 5 ≤ f64Max ∧
    processOne initState (depositTx 1 1 5) = .ok
      { clients := updateClient initState.clients 1
          { initState.clients 1 with
              available := (initState.clients 1).available + 5
              total := (initState.clients 1).total + 5 }
        history := insertTx initState.history 1 (depositTx 1 1 5)
        disputes := initState.disputes } :=
  ⟨by norm_num [f64MinPositive],
   by norm_num [initState, Client.default, f64Max],
   (claim7_amended_deposit initState (depositTx 1 1 5) 5 rfl rfl rfl).1
    (by norm_num [f64MinPositive])
    (by norm_num [initState, Client.default, f64Max])⟩

/-- Claim C9: a Dispute is applied without checking that available covers
    the disputed amount. On the run deposit 5, withdraw 3, dispute the
    deposit, client 1 finishes with available = 5 - 3 - 5 = -3 < 0. -/
theorem claim9_dispute_negative_available :
    (processTransactions [depositTx 1 1 5, withdrawalTx 1 2 3, disputeTx 1 1]
      initState).map (fun s => (s.clients 1).available) = .ok (-3) ∧ (-3 : ℚ) < 0 := by
  constructor
  · norm_num [processTransactions, processOne, deposit, withdraw, dispute,
      insertTx, insertDispute, updateClient, initState, Client.default,
      f64MinPositive, f64Max, Except.map, depositTx, withdrawalTx, disputeTx]
  · norm_num

/-- Counterexample to claim C5 as stated: on the run deposit 5, withdraw 3,
    dispute, chargeback, the total of client 1 goes from 2 (non-negative)
    to -3, negative as the result of a Chargeback; continuing with a deposit
    by client 2 that client 3 disputes and client 2 then resolves, the held
    of client 2 goes from 0 to -5, negative as the result of a Resolve. -/
theorem claim5_counterexample :
    (processTransactions [depositTx 1 1 5, withdrawalTx 1 2 3, disputeTx 1 1]
      initState).map (fun s => (s.clients 1).total) = .ok 2 ∧
    (processTransactions [depositTx 1 1 5, withdrawalTx 1 2 3, disputeTx 1 1,
        chargebackTx 1 1]
      initState).map (fun s => (s.clients 1).total) = .ok (-3) ∧
    (processTransactions [depositTx 1 1 5, withdrawalTx 1 2 3, disputeTx 1 1,
        chargebackTx 1 1, depositTx 2 3 5, disputeTx 3 3]
      initState).map (fun s => (s.clients 2).held) = .ok 0 ∧
    (processTransactions [depositTx 1 1 5, withdrawalTx 1 2 3, disputeTx 1 1,
        chargebackTx 1 1, depositTx 2 3 5, disputeTx 3 3, resolveTx 2 3]
      initState).map (fun s => (s.clients 2).held) = .ok (-5) := by
  refine ⟨?_, ?_, ?_, ?_⟩ <;>
    norm_num [processTransactions, processOne, deposit, withdraw, dispute, resolve,
      chargeBack, insertTx, insertDispute, removeDispute, updateClient, initState,
      Client.default, f64MinPositive, f64Max, Except.map,
      depositTx, withdrawalTx, disputeTx, resolveTx, chargebackTx]

/-- Claim C5 as amended: a Deposit keeps available, held and total
    non-negative (it never decreases any of them), and a Withdrawal never
    reduces available below zero; Resolve and Chargeback can drive held and
    total negative. -/
theorem claim5_amended_nonneg (a : ℚ) (c c' : Client) (b : Bool) :
    (deposit a c = .ok c' →
      (0 ≤ c.available → 0 ≤ c'.available) ∧ (0 ≤ c.held → 0 ≤ c'.held) ∧
      (0 ≤ c.total → 0 ≤ c'.total)) ∧
    (withdraw a c = .ok (b, c') → 0 ≤ c.available → 0 ≤ c'.available) := by
  constructor
  · intro h
    unfold deposit at h
    split at h
    · simp at h
    · split at h
      · simp at h
      · rename_i hmin hmax
        injection h with h
        subst h
        have ha : (0:ℚ) < a :=
          lt_of_lt_of_le (by norm_num [f64MinPositive]) (not_lt.mp hmin)
        exact ⟨fun hc => add_nonneg hc ha.le, fun hc => hc,
          fun hc => add_nonneg hc ha.le⟩
  · intro h hav
    unfold withdraw at h
    split at h
    · simp at h
    · split at h
      · rename_i hmin hlt
        simp only [Except.ok.injEq, Prod.mk.injEq] at h
        obtain ⟨hb, hc'⟩ := h
        subst hc'
        exact le_of_lt (sub_pos.mpr hlt)
      · simp only [Except.ok.injEq, Prod.mk.injEq] at h
        obtain ⟨hb, hc'⟩ := h
        subst hc'
        exact hav

theorem claim5_amended_nonneg_witness :
    deposit 5 Client.default = .ok { available := 5, held := 0, total := 5, locked := false } ∧
    (0 : ℚ) ≤ ({ available := 5, held := 0, total := 5, locked := false } : Client).available :=
  ⟨by norm_num [deposit, Client.default, f64MinPositive, f64Max],
   ((claim5_amended_nonneg 5 Client.default
      { available := 5, held := 0, total := 5, locked := false } true).1
     (by norm_num [deposit, Client.default, f64MinPositive, f64Max])).1
     (by norm_num [Client.default])⟩

/-- Counterexample to claim C6 as stated: reusing transaction id 1 for a
    second Deposit, or for a successful Withdrawal, neither stops processing
    nor reports an error; the run completes and the history entry for id 1
    is overwritten by the later record in both cases. -/
theorem claim6_counterexample :
    (processTransactions [depositTx 1 1 5, depositTx 1 1 7] initState).map
      (fun s => s.history 1) = .ok (some (depositTx 1 1 7)) ∧
    (processTransactions [depositTx 1 1 5, withdrawalTx 1 1 3] initState).map
      (fun s => s.history 1) = .ok (some (withdrawalTx 1 1 3)) := by
  constructor <;>
    norm_num [processTransactions, processOne, deposit, withdraw, insertTx,
      updateClient, initState, Client.default, f64MinPositive, f64Max,
      Except.map, depositTx, withdrawalTx]

/-- Claim C6 as amended: a duplicate transaction identifier reused for a
    second Deposit or for a successful Withdrawal is not detected; the
    record is processed like any other and the history entry for that
    identifier is overwritten with the new record. -/
theorem claim6_amended_duplicate (s : EngineState) (t : Transaction) (a : ℚ)
    (hamt : t.amount = some a) (hmin : f64MinPositive ≤ a)
    (hunlocked : (s.clients t.client_id).locked = false)
    (hdup : s.history t.tx ≠ none) :
    (t.category = .Deposit → (s.clients t.client_id).total + a ≤ f64Max →
      ∃ s', processOne s t = .ok s' ∧ s'.history t.tx = some t) ∧
    (t.category = .Withdrawal → a < (s.clients t.client_id).available →
      ∃ s', processOne s t = .ok s' ∧ s'.history t.tx = some t) := by
  constructor
  · intro hcat hmax
    have hrun : processOne s t = .ok
        { clients := updateClient s.clients t.client_id
            { s.clients t.client_id with
                available := (s.clients t.client_id).available + a
                total := (s.clients t.client_id).total + a }
          history := insertTx s.history t.tx t
          disputes := s.disputes } := by
      unfold processOne deposit
      simp [hunlocked, hcat, hamt, not_lt.mpr hmin, not_lt.mpr hmax]
    exact ⟨_, hrun, by simp [insertTx]⟩
  · intro hcat hlt
    have hrun : processOne s t = .ok
        { clients := updateClient s.clients t.client_id
            { s.clients t.client_id with
                available := (s.clients t.client_id).available - a
                total := (s.clients t.client_id).total - a }
          history := insertTx s.history t.tx t
          disputes := s.disputes } := by
      unfold processOne withdraw
      simp [hunlocked, hcat, hamt, not_lt.mpr hmin, hlt]
    exact ⟨_, hrun, by simp [insertTx]⟩

/-- A state whose history already maps transaction id 1 to a deposit: the
    witness input for the amended C6. -/
def dupState : EngineState :=
  { clients := fun k => if k = 1 then { available := 5, held := 0, total := 5, locked := false } else Client.default
    history := fun k => if k = 1 then some (depositTx 1 1 5) else none
    disputes := fun _ => false }

theorem claim6_amended_duplicate_witness :
    dupState.history 1 ≠ none ∧
    (∃ s', processOne dupState (depositTx 1 1 7) = .ok s' ∧
      s'.history 1 = some (depositTx 1 1 7)) ∧
    (∃ s', processOne dupState (withdrawalTx 1 1 3) = .ok s' ∧
      s'.history 1 = some (withdrawalTx 1 1 3)) :=
  ⟨by simp [dupState],
   (claim6_amended_duplicate dupState (depositTx 1 1 7) 7 rfl
     (by norm_num [f64MinPositive]) rfl (by simp [dupState, depositTx])).1 rfl
     (by norm_num [dupState, depositTx, f64Max]),
   (claim6_amended_duplicate dupState (withdrawalTx 1 1 3) 3 rfl
     (by norm_num [f64MinPositive]) rfl (by simp [dupState, withdrawalTx])).2 rfl
     (by norm_num [dupState, withdrawalTx])⟩

/-- Every record stored in the history carries a present amount and is
    keyed by its own transaction id. -/
def HistoryWF (s : EngineState) : Prop :=
  ∀ k r, s.history k = some r → (∃ a, r.amount = some a) ∧ r.tx = k

/-- Every identifier in the dispute set is a key of the history store. -/
def DisputesWF (s : EngineState) : Prop :=
  ∀ k, s.disputes k = true → ∃ r, s.history k = some r

theorem dispute_disputes_subset {txId : Nat} {hist : Nat → Option Transaction}
    {disp : Nat → Bool} {c : Client} {out : (Nat → Bool) × Client}
    (h : dispute txId hist disp c = .ok out)
    (hw : ∀ k r, hist k = some r → r.tx = k)
    (hd : ∀ k, disp k = true → ∃ r, hist k = some r) :
    ∀ k, out.1 k = true → ∃ r, hist k = some r := by
  unfold dispute at h
  split at h
  · injection h with h; subst h; exact hd
  · split at h
    · injection h with h; subst h; exact hd
    · rename_i disputed hh
      split at h
      · split at h
        · simp at h
        · injection h with h
          subst h
          intro k hk
          simp only [insertDispute] at hk
          by_cases hkt : k = disputed.tx
          · subst hkt
            rw [hw txId disputed hh]
            exact ⟨disputed, hh⟩
          · exact hd k (by simpa [hkt] using hk)
      · injection h with h; subst h; exact hd

theorem resolve_disputes_subset {txId : Nat} {hist : Nat → Option Transaction}
    {disp : Nat → Bool} {c : Client} {out : (Nat → Bool) × Client}
    (h : resolve txId hist disp c = .ok out) :
    ∀ k, out.1 k = true → disp k = true := by
  unfold resolve at h
  split at h
  · split at h
    · injection h with h; subst h; exact fun k hk => hk
    · split at h
      · split at h
        · simp at h
        · injection h with h
          subst h
          intro k hk
          simp only [removeDispute] at hk
          split at hk
          · simp at hk
          · exact hk
      · injection h with h; subst h; exact fun k hk => hk
  · injection h with h; subst h; exact fun k hk => hk

theorem chargeBack_disputes_subset {txId : Nat} {hist : Nat → Option Transaction}
    {disp : Nat → Bool} {c : Client} {out : (Nat → Bool) × Client}
    (h : chargeBack txId hist disp c = .ok out) :
    ∀ k, out.1 k = true → disp k = true := by
  unfold chargeBack at h
  split at h
  · split at h
    · injection h with h; subst h; exact fun k hk => hk
    · split at h
      · split at h
        · simp at h
        · injection h with h
          subst h
          intro k hk
          simp only [removeDispute] at hk
          split at hk
          · simp at hk
          · exact hk
      · injection h with h; subst h; exact fun k hk => hk
  · injection h with h; subst h; exact fun k hk => hk

theorem insertTx_historyWF {hist : Nat → Option Transaction} {t : Transaction} {a : ℚ}
    (hamt : t.amount = some a)
    (hw : ∀ k r, hist k = some r → (∃ a, r.amount = some a) ∧ r.tx = k) :
    ∀ k r, insertTx hist t.tx t k = some r → (∃ a, r.amount = some a) ∧ r.tx = k := by
  intro k r hk
  simp only [insertTx] at hk
  by_cases hkt : k = t.tx
  · subst hkt
    simp at hk
    subst hk
    exact ⟨⟨a, hamt⟩, rfl⟩
  · exact hw k r (by simpa [hkt] using hk)

theorem insertTx_disputesWF {hist : Nat → Option Transaction} {t : Transaction}
    {disp : Nat → Bool}
    (hd : ∀ k, disp k = true → ∃ r, hist k = some r) :
    ∀ k, disp k = true → ∃ r, insertTx hist t.tx t k = some r := by
  intro k hk
  by_cases hkt : k = t.tx
  · subst hkt
    exact ⟨t, by simp [insertTx]⟩
  · obtain ⟨r, hr⟩ := hd k hk
    exact ⟨r, by simpa [insertTx, hkt] using hr⟩

theorem processOne_wf {s s' : EngineState} {t : Transaction}
    (h : processOne s t = .ok s') (hw : HistoryWF s) (hd : DisputesWF s) :
    HistoryWF s' ∧ DisputesWF s' := by
  unfold processOne at h
  split at h
  · injection h with h; subst h; exact ⟨hw, hd⟩
  · split at h
    · -- Deposit
      split at h
      · simp at h
      · rename_i amount hamt
        split at h
        · simp at h
        · injection h with h
          subst h
          exact ⟨insertTx_historyWF hamt hw, insertTx_disputesWF hd⟩
    · -- Withdrawal
      split at h
      · simp at h
      · rename_i amount hamt
        split at h
        · simp at h
        · rename_i succ cl hwd
          injection h with h
          subst h
          cases succ with
          | true =>
            constructor
            · intro k r hk
              simp only [if_true] at hk
              exact insertTx_historyWF hamt hw k r hk
            · intro k hk
              simp only [if_true]
              exact insertTx_disputesWF hd k hk
          | false =>
            constructor
            · intro k r hk
              simp only [Bool.false_eq_true, if_false] at hk
              exact hw k r hk
            · intro k hk
              simp only [Bool.false_eq_true, if_false]
              exact hd k hk
    · -- Dispute
      split at h
      · simp at h
      · rename_i pr hdi
        injection h with h
        subst h
        exact ⟨hw, dispute_disputes_subset hdi (fun k r hk => (hw k r hk).2) hd⟩
    · -- Resolve
      split at h
      · simp at h
      · rename_i pr hre
        injection h with h
        subst h
        exact ⟨hw, fun k hk => hd k (resolve_disputes_subset hre k hk)⟩
    · -- Chargeback
      split at h
      · simp at h
      · rename_i pr hcb
        injection h with h
        subst h
        exact ⟨hw, fun k hk => hd k (chargeBack_disputes_subset hcb k hk)⟩

theorem processTransactions_wf (ts : List Transaction) :
    ∀ s s', processTransactions ts s = .ok s' → HistoryWF s → DisputesWF s →
      HistoryWF s' ∧ DisputesWF s' := by
  induction ts with
  | nil =>
    intro s s' h hw hd
    injection h with h
    subst h
    exact ⟨hw, hd⟩
  | cons t ts ih =>
    intro s s' h hw hd
    unfold processTransactions at h
    split at h
    · simp at h
    · rename_i s1 heq
      obtain ⟨hw1, hd1⟩ := processOne_wf heq hw hd
      exact ih s1 s' h hw1 hd1

theorem resolve_ok_of_amounts {txId : Nat} {hist : Nat → Option Transaction}
    {disp : Nat → Bool} {c : Client}
    (hw : ∀ k r, hist k = some r → ∃ a, r.amount = some a) :
    ∃ out, resolve txId hist disp c = .ok out := by
  unfold resolve
  split
  · split
    · exact ⟨_, rfl⟩
    · rename_i resolved hh
      split
      · split
        · rename_i hnone
          obtain ⟨a, ha⟩ := hw txId resolved hh
          rw [hnone] at ha
          exact absurd ha (by simp)
        · exact ⟨_, rfl⟩
      · exact ⟨_, rfl⟩
  · exact ⟨_, rfl⟩

theorem chargeBack_ok_of_amounts {txId : Nat} {hist : Nat → Option Transaction}
    {disp : Nat → Bool} {c : Client}
    (hw : ∀ k r, hist k = some r → ∃ a, r.amount = some a) :
    ∃ out, chargeBack txId hist disp c = .ok out := by
  unfold chargeBack
  split
  · split
    · exact ⟨_, rfl⟩
    · rename_i chargedBack hh
      split
      · split
        · rename_i hnone
          obtain ⟨a, ha⟩ := hw txId chargedBack hh
          rw [hnone] at ha
          exact absurd ha (by simp)
        · exact ⟨_, rfl⟩
      · exact ⟨_, rfl⟩
  · exact ⟨_, rfl⟩

/-- Claim C10 as amended: in every reachable state, every identifier in the
    dispute set is a key of the history store and every stored record has a
    present amount, so the lookups and amount extractions inside Resolve and
    Chargeback never fail; the kind of the stored record, however, need not
    still be Deposit (a withdrawal reusing the identifier may have
    overwritten it, in which case Resolve and Chargeback silently no-op). -/
theorem claim10_amended_dispute_set_wf (ts : List Transaction) (s : EngineState)
    (h : processTransactions ts initState = .ok s) :
    (∀ k, s.disputes k = true → ∃ r, s.history k = some r ∧ ∃ a, r.amount = some a) ∧
    (∀ k c, (∃ out, resolve k s.history s.disputes c = .ok out) ∧
      (∃ out, chargeBack k s.history s.disputes c = .ok out)) := by
  have hw0 : HistoryWF initState := by
    intro k r hk
    simp [initState] at hk
  have hd0 : DisputesWF initState := by
    intro k hk
    simp [initState] at hk
  obtain ⟨hw, hd⟩ := processTransactions_wf ts initState s h hw0 hd0
  constructor
  · intro k hk
    obtain ⟨r, hr⟩ := hd k hk
    exact ⟨r, hr, (hw k r hr).1⟩
  · intro k c
    exact ⟨resolve_ok_of_amounts (fun k' r hk' => (hw k' r hk').1),
           chargeBack_ok_of_amounts (fun k' r hk' => (hw k' r hk').1)⟩

/-- The state after depositing 5 as transaction 1 and disputing it: the
    witness input for the amended C10. -/
def c10State : EngineState :=
  { clients := updateClient (updateClient initState.clients 1
        { available := 5, held := 0, total := 5, locked := false }) 1
        { available := 0, held := 5, total := 5, locked := false }
    history := insertTx initState.history 1 (depositTx 1 1 5)
    disputes := insertDispute initState.disputes 1 }

theorem claim10_amended_dispute_set_wf_witness :
    processTransactions [depositTx 1 1 5, disputeTx 1 1] initState = .ok c10State ∧
    c10State.disputes 1 = true ∧
    (∃ r, c10State.history 1 = some r ∧ ∃ a, r.amount = some a) :=
  ⟨by norm_num [processTransactions, processOne, deposit, dispute, insertTx,
      insertDispute, updateClient, initState, Client.default, f64MinPositive,
      f64Max, depositTx, disputeTx, c10State],
   rfl,
   (claim10_amended_dispute_set_wf [depositTx 1 1 5, disputeTx 1 1] c10State
    (by norm_num [processTransactions, processOne, deposit, dispute, insertTx,
      insertDispute, updateClient, initState, Client.default, f64MinPositive,
      f64Max, depositTx, disputeTx, c10State])).1 1 rfl⟩

/-- Counterexample to claim C10 as stated: after deposit (tx 1), a second
    deposit (tx 2), a dispute of tx 1 and then a successful withdrawal that
    reuses tx 1, the identifier 1 is still in the dispute set but the
    history record under key 1 is a Withdrawal, not a Deposit. -/
theorem claim10_counterexample :
    (processTransactions [depositTx 1 1 5, depositTx 1 2 5, disputeTx 1 1,
        withdrawalTx 1 1 3]
      initState).map (fun s => (s.disputes 1, s.history 1)) =
      .ok (true, some (withdrawalTx 1 1 3)) ∧
    (withdrawalTx 1 1 3).category ≠ TransactionCategory.Deposit := by
  constructor
  · norm_num [processTransactions, processOne, deposit, withdraw, dispute,
      insertTx, insertDispute, updateClient, initState, Client.default,
      f64MinPositive, f64Max, Except.map, depositTx, withdrawalTx, disputeTx]
  · simp [withdrawalTx]

end PaymentsEngine
